import Mathlib

/-!
Verification of the template-catalog search/filter core.

The definitions below are shallow embeddings of the TypeScript/JavaScript
sources: the `TemplateGrid` component (catalog normalizer `uniqueTemplates`,
Fuse.js configuration, `filteredTemplates` pipeline, `useDebounce`, and the
store-publishing effect), the `useFuseSearch` hook, and the standalone
maintenance script `dedupe-and-sort-meta.js`.  The external Fuse.js engine is
abstracted as an opaque search function; everything else is translated
directly from the source.
-/

/-- The optional link fields of a template record (`links` in the source). -/
structure Links where
  github : Option String := none
  website : Option String := none
  docs : Option String := none
deriving DecidableEq, Repr, Inhabited

/-- One catalog entry, mirroring the `Template` interface of the source.
A missing (`undefined`) `id` or `name` at runtime is modelled by the empty
string, which is falsy in JavaScript exactly like the missing value. -/
structure Template where
  id : String
  name : String := ""
  description : String := ""
  version : String := ""
  logo : Option String := none
  links : Links := ⟨none, none, none⟩
  tags : List String := []
deriving DecidableEq, Repr, Inhabited

/-! ### The JavaScript `Map` used by the normalizer

`Map` preserves insertion order of keys; `set` on an existing key replaces the
value in place (keeping the key's position), and on a fresh key appends.  We
model it as an association list. -/

/-- Model of `templateMap.has(k)`. -/
def mapHas (m : List (String × Template)) (k : String) : Bool :=
  m.any fun p => p.1 == k

/-- Model of `templateMap.set(k, v)`: replace in place if the key is present,
append otherwise. -/
def mapSet (m : List (String × Template)) (k : String) (v : Template) :
    List (String × Template) :=
  if mapHas m k then m.map fun p => if p.1 == k then (k, v) else p
  else m ++ [(k, v)]

/-- The mutable state of the `templates.forEach` pass inside
`uniqueTemplates`: the `templateMap` and the `seenNames` set. -/
structure NormState where
  templateMap : List (String × Template)
  seenNames : List String
deriving Repr

/-- The key chosen for one record, from the body of the `forEach` callback:
use `template.id` unless the map already has it or it is falsy, else fall
back to `template.name`, or to `name-index` when the name was already seen. -/
def uniqueKeyOf (st : NormState) (t : Template) (index : Nat) : String :=
  if mapHas st.templateMap t.id ∨ t.id = "" then
    if t.name ∈ st.seenNames then t.name ++ "-" ++ toString index
    else t.name
  else t.id

/-- One iteration of the `forEach` in `uniqueTemplates`. -/
def normStep (st : NormState) (t : Template) (index : Nat) : NormState :=
  { templateMap := mapSet st.templateMap (uniqueKeyOf st t index) { t with id := uniqueKeyOf st t index },
    seenNames := t.name :: st.seenNames }

/-- The whole `forEach` over the remaining records, threading the index. -/
def normGo : List Template → Nat → NormState → NormState
  | [], _, st => st
  | t :: rest, i, st => normGo rest (i + 1) (normStep st t i)

/-- Model of `uniqueTemplates`: run the pass from the empty map and empty
seen-name set and return `Array.from(templateMap.values())`, i.e. the map
values in key-insertion order.  (The early return for an empty input agrees
with running the pass on the empty list.) -/
def uniqueTemplates (templates : List Template) : List Template :=
  (normGo templates 0 ⟨[], []⟩).templateMap.map Prod.snd

/-- The normalizer state after the first `n` records have been processed. -/
def stateAt (templates : List Template) (n : Nat) : NormState :=
  normGo (templates.take n) 0 ⟨[], []⟩

/-- The key under which record number `i` is written into the map. -/
def keyAt (templates : List Template) (i : Nat) : String :=
  uniqueKeyOf (stateAt templates i) (templates.getD i default) i

/-- Invariant of the normalizer map: the keys are pairwise distinct and each
stored record's `id` equals its key. -/
def goodMap (m : List (String × Template)) : Prop :=
  (m.map Prod.fst).Nodup ∧ ∀ p ∈ m, p.2.id = p.1

/-! ### Fuse.js configuration records

Only the condition `templates.length === 0 → fuse = null` and the option
values matter for the claims; the matching engine itself is external. -/

/-- One weighted search key of a Fuse.js options object. -/
structure FuseKey where
  name : String
  weight : ℚ
deriving DecidableEq, Repr

/-- The Fuse.js option fields set by this repository (defaults are the
documented Fuse.js defaults). -/
structure FuseOptions where
  isCaseSensitive : Bool := false
  ignoreDiacritics : Bool := false
  includeScore : Bool := false
  includeMatches : Bool := false
  minMatchCharLength : Nat := 1
  shouldSort : Bool := true
  findAllMatches : Bool := false
  keys : List FuseKey := []
  location : Nat := 0
  threshold : ℚ := 0.6
  distance : Nat := 100
  ignoreLocation : Bool := false
  useExtendedSearch : Bool := false
  ignoreFieldNorm : Bool := false
  fieldNormWeight : ℚ := 1
deriving Repr

/-- The options passed to `new Fuse` inside `TemplateGrid` (the search index
of the filter pipeline). -/
def templateGridFuseOptions : FuseOptions :=
  { keys := [⟨"name", 0.7⟩, ⟨"description", 0.2⟩, ⟨"tags", 0.1⟩],
    threshold := 0.3,
    ignoreLocation := true,
    includeScore := true,
    minMatchCharLength := 1 }

/-- The options built inside the `useFuseSearch` hook. -/
def useFuseSearchOptions : FuseOptions :=
  { isCaseSensitive := false,
    ignoreDiacritics := true,
    includeScore := true,
    includeMatches := true,
    minMatchCharLength := 1,
    shouldSort := true,
    findAllMatches := false,
    keys := [⟨"name", 2⟩, ⟨"description", 1⟩, ⟨"tags", 1.5⟩, ⟨"id", 0.5⟩],
    location := 0,
    threshold := 0.4,
    distance := 100,
    ignoreLocation := true,
    useExtendedSearch := false,
    ignoreFieldNorm := false,
    fieldNormWeight := 1 }

/-- The weight an options object assigns to a field (`0` when the field is
not among the keys). -/
def keyWeight (opts : FuseOptions) (field : String) : ℚ :=
  ((opts.keys.find? fun k => k.name == field).map FuseKey.weight).getD 0

/-- Model of JavaScript `String.prototype.trim`: strip leading and trailing
whitespace (written over the character list so that it evaluates). -/
def jsTrim (s : String) : String :=
  ⟨((s.data.dropWhile Char.isWhitespace).reverse.dropWhile Char.isWhitespace).reverse⟩

/-! ### The filter pipeline of `TemplateGrid` -/

/-- Model of the `fuse` memo: `null` when the (normalized) catalog is empty,
otherwise an index whose `search` behaviour is the abstract `engine`. -/
def fuseOf (uniqueTemplates : List Template) (engine : String → List Template) :
    Option (String → List Template) :=
  if uniqueTemplates.isEmpty then none else some engine

/-- The predicate of the tag-filter step:
`selectedTags.every(tag => template.tags.includes(tag))`. -/
def matchesAllTags (selectedTags : List String) (t : Template) : Bool :=
  selectedTags.all fun tag => t.tags.contains tag

/-- Step 1 of `filteredTemplates`: when the debounced query is non-blank and
an index exists, the working set is the search result, otherwise the full
normalized catalog. -/
def step1WorkingSet (uniqueTemplates : List Template)
    (fuse : Option (String → List Template)) (debouncedSearchQuery : String) :
    List Template :=
  match fuse with
  | some f => if jsTrim debouncedSearchQuery ≠ "" then f debouncedSearchQuery else uniqueTemplates
  | none => uniqueTemplates

/-- Model of the `filteredTemplates` memo: early return for the empty
catalog, then the text-search step, then the conjunctive tag filter. -/
def filteredTemplates (uniqueTemplates : List Template)
    (fuse : Option (String → List Template)) (debouncedSearchQuery : String)
    (selectedTags : List String) : List Template :=
  if uniqueTemplates.isEmpty then []
  else
    let filtered := step1WorkingSet uniqueTemplates fuse debouncedSearchQuery
    if selectedTags.length > 0 then filtered.filter (matchesAllTags selectedTags)
    else filtered

/-! ### The `useDebounce` hook -/

/-- The debounce delay passed at the call site
(`useDebounce(searchQuery, 300)`). -/
def searchDebounceDelay : Nat := 300

/-- Discrete-event model of `useDebounce`: the input is the time-stamped list
of values taken by `value` (each change re-runs the effect), and the output
is the time-stamped list of `setDebouncedValue` emissions.  A change at time
`t` schedules an emission at `t + delay`; the cleanup run at the next change
clears a timer that has not yet fired, so the emission survives only when the
next change arrives no earlier than `t + delay`. -/
def debounceEmissions (delay : Nat) : List (Nat × String) → List (Nat × String)
  | [] => []
  | [(t, v)] => [(t + delay, v)]
  | (t, v) :: (t2, v2) :: rest =>
    if t + delay ≤ t2 then (t + delay, v) :: debounceEmissions delay ((t2, v2) :: rest)
    else debounceEmissions delay ((t2, v2) :: rest)

/-! ### The view-state sink

The store module (`@/store`) is not among the source files; its setters are
modelled from the spec. -/

/-- The slice of the store observed and written by `TemplateGrid`. -/
structure StoreState where
  templates : List Template
  searchQuery : String
  selectedTags : List String
  filteredTemplates : List Template
  templatesCount : Nat
deriving Repr

/-- Modelled from the spec: the store's `setFilteredTemplates` setter (the
store module is not among the sources); per §4.5 it replaces the published
`items` list. -/
def setFilteredTemplates (s : StoreState) (items : List Template) : StoreState :=
  { s with filteredTemplates := items }

/-- Modelled from the spec: the store's `setTemplatesCount` setter (the store
module is not among the sources); per §4.5 it replaces the published count. -/
def setTemplatesCount (s : StoreState) (n : Nat) : StoreState :=
  { s with templatesCount := n }

/-- Modelled from the spec: the store's `setSearchQuery` mutation entry point
(§4.5 `setQuery`), updating the raw query immediately. -/
def setSearchQuery (s : StoreState) (q : String) : StoreState :=
  { s with searchQuery := q }

/-- Modelled from the spec: the store's `addSelectedTag` mutation entry point
(§4.5 `toggleTag`-style), adding a tag to the selection set. -/
def addSelectedTag (s : StoreState) (tag : String) : StoreState :=
  { s with selectedTags :=
      if tag ∈ s.selectedTags then s.selectedTags else s.selectedTags ++ [tag] }

/-- The store-publishing effect of `TemplateGrid`:
`setFilteredTemplates(filteredTemplates); setTemplatesCount(filteredTemplates.length)`,
applied as one snapshot update (the effect completes before the next render
is observed). -/
def publishFiltered (s : StoreState) (items : List Template) : StoreState :=
  setTemplatesCount (setFilteredTemplates s items) items.length

/-- A mutation of the query state, per §4.5. -/
inductive Mutation where
  | setQuery : String → Mutation
  | addTag : String → Mutation
deriving DecidableEq, Repr

/-- One reactive update: apply the mutation to the store, recompute the
filter pipeline on the normalized catalog, and publish the snapshot. -/
def applyMutation (engine : String → List Template) (s : StoreState)
    (m : Mutation) : StoreState :=
  let s1 := match m with
    | Mutation.setQuery q => setSearchQuery s q
    | Mutation.addTag t => addSelectedTag s t
  let uniq := uniqueTemplates s1.templates
  publishFiltered s1
    (filteredTemplates uniq (fuseOf uniq engine) s1.searchQuery s1.selectedTags)

/-! ### The `useFuseSearch` hook -/

/-- One Fuse.js search result as exposed by `fuse.search`: the matched item
together with its score (match details abstracted away). -/
structure FuseResult where
  item : Template
  score : ℚ
deriving DecidableEq, Repr

/-- The `fuse` memo of `useFuseSearch`: `null` when the template list is
empty, otherwise an index whose `search` behaviour is the abstract
`engine`. -/
def useFuseSearchFuse (templates : List Template)
    (engine : String → List FuseResult) : Option (String → List FuseResult) :=
  if templates.isEmpty then none else some engine

/-- The `search` entry point of `useFuseSearch`: the full template list for a
blank query or an absent index, otherwise the matched items. -/
def useFuseSearchSearch (templates : List Template)
    (fuse : Option (String → List FuseResult)) (query : String) : List Template :=
  match fuse with
  | none => templates
  | some f => if jsTrim query = "" then templates else (f query).map FuseResult.item

/-- The `searchWithDetails` entry point of `useFuseSearch`: the empty list
for a blank query or an absent index, otherwise the raw results. -/
def useFuseSearchWithDetails (fuse : Option (String → List FuseResult))
    (query : String) : List FuseResult :=
  match fuse with
  | none => []
  | some f => if jsTrim query = "" then [] else f query

/-! ### The maintenance script `dedupe-and-sort-meta.js` -/

/-- One record of the persisted catalog as the script sees it: `id` and
`name` are `none` when missing (or otherwise falsy); `payload` stands for the
remaining fields of the object. -/
structure MetaItem where
  id : Option String := none
  name : Option String := none
  payload : String := ""
deriving DecidableEq, Repr

/-- One entry of the parsed JSON array: either not a structured object
(`invalid`, covering `null` and non-objects) or a record. -/
inductive MetaEntry where
  | invalid : MetaEntry
  | item : MetaItem → MetaEntry
deriving DecidableEq, Repr

/-- One diagnostic printed by the script's scan. -/
inductive MetaDiag where
  | skippedInvalid : Nat → MetaDiag
  | skippedNoId : Nat → Option String → MetaDiag
  | duplicate : String → Option String → Nat → MetaDiag
deriving DecidableEq, Repr

/-- The `data.forEach` scan of the script: skip non-objects and items without
an id (warning for each), record duplicate ids (keeping only the first
occurrence), and collect the unique items in input order. -/
def dedupeScan : List MetaEntry → Nat → List String → List MetaItem × List MetaDiag
  | [], _, _ => ([], [])
  | MetaEntry.invalid :: rest, i, seen =>
    let r := dedupeScan rest (i + 1) seen
    (r.1, MetaDiag.skippedInvalid i :: r.2)
  | MetaEntry.item it :: rest, i, seen =>
    match it.id with
    | none =>
      let r := dedupeScan rest (i + 1) seen
      (r.1, MetaDiag.skippedNoId i it.name :: r.2)
    | some d =>
      if d ∈ seen then
        let r := dedupeScan rest (i + 1) seen
        (r.1, MetaDiag.duplicate d it.name i :: r.2)
      else
        let r := dedupeScan rest (i + 1) (d :: seen)
        (it :: r.1, r.2)

/-- The sort key used by the script's comparator:
`item.id.toLowerCase()` (compared with `localeCompare`, modelled as the
lexicographic order on the lowercased id). -/
def itemKey (it : MetaItem) : String := (it.id.getD "").toLower

/-- The comparator relation of the script's `unique.sort`. -/
def metaLE (a b : MetaItem) : Prop := itemKey a ≤ itemKey b

instance : DecidableRel metaLE := fun a b =>
  inferInstanceAs (Decidable (itemKey a ≤ itemKey b))

instance : IsTotal MetaItem metaLE :=
  ⟨fun a b => le_total (itemKey a) (itemKey b)⟩

instance : IsTrans MetaItem metaLE :=
  ⟨fun _ _ _ h1 h2 => le_trans h1 h2⟩

/-- One file write performed by the script. -/
structure FileWrite where
  path : String
  content : String
deriving DecidableEq, Repr

/-- Model of `dedupeAndSortMeta`: scan the parsed entries, sort the kept
items by lowercased id, and perform the two writes in order — first the
timestamped backup of the prior raw content, then the overwrite of the
catalog file with the rendered result (`JSON.stringify` abstracted as
`render`). -/
def dedupeAndSortMeta (filePath fileContent : String) (now : Nat)
    (render : List MetaItem → String) (data : List MetaEntry) :
    List MetaItem × List FileWrite :=
  let unique := (dedupeScan data 0 []).1
  let sorted := unique.insertionSort metaLE
  (sorted,
    [⟨filePath ++ ".backup." ++ toString now, fileContent⟩,
     ⟨filePath, render sorted⟩])

/-- Reference function written from the claim's words, to compare with the
script: keep only the first record bearing each id, discarding every later
record with a duplicate id. -/
def keepFirstById : List MetaItem → List String → List MetaItem
  | [], _ => []
  | it :: rest, seen =>
    match it.id with
    | none => keepFirstById rest seen
    | some d =>
      if d ∈ seen then keepFirstById rest seen
      else it :: keepFirstById rest (d :: seen)

/-! ### Concrete inputs used by counterexamples and witnesses -/

/-- Two well-formed records sharing the raw id `"x"`, the second of which is
named `"x"` as well. -/
def exDropPair : List Template :=
  [{ id := "x", name := "a" }, { id := "x", name := "x" }]

/-- Three records sharing the raw id `"k"`; the synthesized key of the third
(`"a-2"`) coincides with the name-derived key of the second. -/
def exDropTriple : List Template :=
  [{ id := "k", name := "a" }, { id := "k", name := "a-2" }, { id := "k", name := "a" }]

/-- A record with neither a usable id nor a usable name. -/
def exBlankRecord : List Template := [{ id := "", name := "" }]

/-- The spec's scenario catalog: two records with the duplicate id
`"ghost"`. -/
def exGhost : List Template :=
  [{ id := "ghost", name := "Ghost", tags := ["cms", "blog"] },
   { id := "ghost", name := "Ghost Dup", tags := ["cms"] }]

/-- Two identical-id, identical-name records (witness input). -/
def exDupNames : List Template :=
  [{ id := "svc", name := "Svc" }, { id := "svc", name := "Svc" }]

/-- A small catalog for the tag-filter witness. -/
def exTagged : List Template :=
  [{ id := "r", name := "Redis", tags := ["database", "cache"] },
   { id := "p", name := "Postgres", tags := ["database"] },
   { id := "m", name := "Memcached", tags := ["cache", "database"] }]

/-- A template used by the `useFuseSearch` witness. -/
def exGhostOne : Template := { id := "ghost", name := "Ghost", tags := ["cms"] }

/-- Catalog-file records for the maintenance-script witness: a duplicate of
the id `"b"` and an unsorted order. -/
def exMetaItems : List MetaItem :=
  [{ id := some "b", name := some "B" }, { id := some "a", payload := "x" },
   { id := some "b", payload := "y" }]

/-- Catalog-file entries for the skip witness: a valid record, an entry that
is not a structured object, and another valid record. -/
def exMetaPre : List MetaEntry := [MetaEntry.item { id := some "a" }]

/-- The records after the invalid entry in the skip witness. -/
def exMetaPost : List MetaEntry := [MetaEntry.item { id := some "b" }]

/-! ## Theorems -/

/-- Claim C4: with the debounced query equal to the empty string and no
selected tags, the filter pipeline returns exactly the full normalized
catalog in its original order. -/
theorem filteredTemplates_empty_query_identity (uniq : List Template)
    (engine : String → List Template) :
    filteredTemplates uniq (fuseOf uniq engine) "" [] = uniq := by
  by_cases h : uniq.isEmpty
  · simp [filteredTemplates, h, List.isEmpty_iff.mp h]
  · simp [filteredTemplates, fuseOf, h, step1WorkingSet, jsTrim]

/-- `mapHas` decides exactly the presence of a key. -/
theorem mapHas_iff (m : List (String × Template)) (k : String) :
    mapHas m k = true ↔ ∃ p ∈ m, p.1 = k := by
  simp [mapHas, List.any_eq_true, beq_iff_eq]

/-- `mapSet` on a present key leaves the key sequence unchanged. -/
theorem keys_mapSet_has (m : List (String × Template)) (k : String) (v : Template)
    (h : mapHas m k = true) :
    (mapSet m k v).map Prod.fst = m.map Prod.fst := by
  rw [mapSet, if_pos h, List.map_map]
  apply List.map_congr_left
  intro p _
  by_cases hpk : p.1 = k
  · simp [Function.comp, hpk]
  · simp [Function.comp, hpk]

/-- `mapSet` on a fresh key appends it to the key sequence. -/
theorem keys_mapSet_not_has (m : List (String × Template)) (k : String) (v : Template)
    (h : ¬ mapHas m k = true) :
    (mapSet m k v).map Prod.fst = m.map Prod.fst ++ [k] := by
  rw [mapSet, if_neg h]
  simp

/-- After `mapSet m k v` the pair `(k, v)` is in the map. -/
theorem mem_mapSet_self (m : List (String × Template)) (k : String) (v : Template) :
    (k, v) ∈ mapSet m k v := by
  by_cases h : mapHas m k = true
  · obtain ⟨p, hp, hpk⟩ := (mapHas_iff m k).mp h
    rw [mapSet, if_pos h]
    exact List.mem_map.mpr ⟨p, hp, by simp [hpk]⟩
  · rw [mapSet, if_neg h]
    exact List.mem_append_right _ (by simp)

/-- `mapSet` keeps every entry whose key differs from the written one. -/
theorem mem_mapSet_of_mem (m : List (String × Template)) (k : String) (v : Template)
    (p : String × Template) (hp : p ∈ m) (hne : p.1 ≠ k) : p ∈ mapSet m k v := by
  by_cases h : mapHas m k = true
  · rw [mapSet, if_pos h]
    refine List.mem_map.mpr ⟨p, hp, ?_⟩
    simp [hne]
  · rw [mapSet, if_neg h]
    exact List.mem_append_left _ hp

/-- Every entry of `mapSet m k v` is an old entry or the written pair. -/
theorem mem_of_mem_mapSet (m : List (String × Template)) (k : String) (v : Template)
    (p : String × Template) (hp : p ∈ mapSet m k v) : p ∈ m ∨ p = (k, v) := by
  by_cases h : mapHas m k = true
  · rw [mapSet, if_pos h] at hp
    obtain ⟨q, hq, hqe⟩ := List.mem_map.mp hp
    by_cases hqk : q.1 = k
    · right
      rw [← hqe]
      simp [hqk]
    · left
      rw [← hqe]
      simpa [hqk] using hq
  · rw [mapSet, if_neg h] at hp
    rcases List.mem_append.mp hp with h1 | h1
    · exact Or.inl h1
    · exact Or.inr (by simpa using h1)

/-- Key presence after `mapSet`: the old keys plus the written one. -/
theorem mapHas_mapSet_iff (m : List (String × Template)) (k : String) (v : Template)
    (k2 : String) :
    mapHas (mapSet m k v) k2 = true ↔ (mapHas m k2 = true ∨ k2 = k) := by
  constructor
  · intro h
    obtain ⟨p, hp, hpk⟩ := (mapHas_iff _ _).mp h
    rcases mem_of_mem_mapSet m k v p hp with h1 | h1
    · exact Or.inl ((mapHas_iff _ _).mpr ⟨p, h1, hpk⟩)
    · right
      rw [← hpk, h1]
  · intro h
    rcases h with h | h
    · obtain ⟨p, hp, hpk⟩ := (mapHas_iff _ _).mp h
      by_cases hpk2 : p.1 = k
      · subst hpk
        rw [hpk2]
        exact (mapHas_iff _ _).mpr ⟨(k, v), mem_mapSet_self m k v, rfl⟩
      · exact (mapHas_iff _ _).mpr ⟨p, mem_mapSet_of_mem m k v p hp hpk2, hpk⟩
    · rw [h]
      exact (mapHas_iff _ _).mpr ⟨(k, v), mem_mapSet_self m k v, rfl⟩

/-- `normGo` splits over an append of the input list. -/
theorem normGo_append (l1 l2 : List Template) (i : Nat) (st : NormState) :
    normGo (l1 ++ l2) i st = normGo l2 (i + l1.length) (normGo l1 i st) := by
  induction l1 generalizing i st with
  | nil => simp [normGo]
  | cons t rest ih =>
    have h1 : normGo ((t :: rest) ++ l2) i st
        = normGo (rest ++ l2) (i + 1) (normStep st t i) := rfl
    have h2 : normGo (t :: rest) i st = normGo rest (i + 1) (normStep st t i) := rfl
    rw [h1, ih, h2, List.length_cons]
    have harith : i + 1 + rest.length = i + (rest.length + 1) := by omega
    rw [harith]

/-- Unfolding one step of the prefix states. -/
theorem stateAt_succ (ts : List Template) (n : Nat) (h : n < ts.length) :
    stateAt ts (n + 1) = normStep (stateAt ts n) (ts.getD n default) n := by
  unfold stateAt
  rw [List.take_succ]
  have hx : ts[n]? = some ts[n] := List.getElem?_eq_getElem h
  have hg : ts.getD n default = ts[n] := by
    rw [List.getD_eq_getElem?_getD, hx]
    rfl
  rw [hx, hg]
  rw [normGo_append]
  have hlen : (ts.take n).length = n := by
    rw [List.length_take]
    omega
  rw [hlen]
  simp [normGo]

/-- The state after the whole pass is the state after all records. -/
theorem stateAt_length (ts : List Template) :
    stateAt ts ts.length = normGo ts 0 ⟨[], []⟩ := by
  unfold stateAt
  rw [List.take_length]

/-- A key is present after `n` records exactly when some earlier record was
written under it. -/
theorem mapHas_stateAt_iff (ts : List Template) (n : Nat) (hn : n ≤ ts.length)
    (k : String) :
    mapHas (stateAt ts n).templateMap k = true ↔ ∃ j, j < n ∧ keyAt ts j = k := by
  induction n with
  | zero =>
    simp [stateAt, normGo, mapHas]
  | succ m ih =>
    have hm : m < ts.length := by omega
    rw [stateAt_succ ts m hm]
    simp only [normStep]
    rw [mapHas_mapSet_iff]
    rw [ih (by omega)]
    constructor
    · rintro (⟨j, hj, hk⟩ | hk)
      · exact ⟨j, by omega, hk⟩
      · exact ⟨m, by omega, hk.symm⟩
    · rintro ⟨j, hj, hk⟩
      by_cases hjm : j = m
      · subst hjm
        exact Or.inr hk.symm
      · exact Or.inl ⟨j, by omega, hk⟩

/-- The normalizer invariant is preserved by one write. -/
theorem goodMap_mapSet (m : List (String × Template)) (k : String) (v : Template)
    (hv : v.id = k) (h : goodMap m) : goodMap (mapSet m k v) := by
  obtain ⟨hnd, hval⟩ := h
  have hmem : ∀ p ∈ mapSet m k v, p.2.id = p.1 := by
    intro p hp
    rcases mem_of_mem_mapSet m k v p hp with h1 | h1
    · exact hval p h1
    · rw [h1]
      exact hv
  by_cases hk : mapHas m k = true
  · exact ⟨by rw [keys_mapSet_has m k v hk]; exact hnd, hmem⟩
  · refine ⟨?_, hmem⟩
    rw [keys_mapSet_not_has m k v hk]
    rw [List.nodup_append]
    refine ⟨hnd, List.nodup_singleton k, ?_⟩
    intro a ha hb
    have hak : a = k := by simpa using hb
    subst hak
    obtain ⟨p, hp, hpk⟩ := List.mem_map.mp ha
    exact hk ((mapHas_iff m a).mpr ⟨p, hp, hpk⟩)

/-- The normalizer invariant is preserved by the whole pass. -/
theorem goodMap_normGo (l : List Template) (i : Nat) (st : NormState)
    (h : goodMap st.templateMap) : goodMap (normGo l i st).templateMap := by
  induction l generalizing i st with
  | nil => exact h
  | cons t rest ih =>
    apply ih
    exact goodMap_mapSet _ _ _ rfl h

/-- The ids of the normalized output are exactly the map keys. -/
theorem ids_eq_keys (ts : List Template) :
    (uniqueTemplates ts).map Template.id
      = (normGo ts 0 ⟨[], []⟩).templateMap.map Prod.fst := by
  unfold uniqueTemplates
  rw [List.map_map]
  apply List.map_congr_left
  intro p hp
  exact (goodMap_normGo ts 0 ⟨[], []⟩ ⟨List.nodup_nil, by simp⟩).2 p hp

/-- Every entry ever present in the map is an input record with only its
`id` field rewritten to its key. -/
theorem normGo_values_from (ts l : List Template) (i : Nat) (st : NormState)
    (hsub : ∀ t ∈ l, t ∈ ts)
    (h : ∀ p ∈ st.templateMap, ∃ r ∈ ts, p.2 = { r with id := p.1 }) :
    ∀ p ∈ (normGo l i st).templateMap, ∃ r ∈ ts, p.2 = { r with id := p.1 } := by
  induction l generalizing i st with
  | nil => exact h
  | cons t rest ih =>
    apply ih _ _ (fun x hx => hsub x (List.mem_cons_of_mem _ hx))
    intro p hp
    rcases mem_of_mem_mapSet _ _ _ p hp with h1 | h1
    · exact h p h1
    · refine ⟨t, hsub t (List.mem_cons_self _ _), ?_⟩
      rw [h1]

/-- Record `i` is written into the map under its key. -/
theorem entry_enters (ts : List Template) (i : Nat) (hi : i < ts.length) :
    (keyAt ts i, { ts.getD i default with id := keyAt ts i })
      ∈ (stateAt ts (i + 1)).templateMap := by
  rw [stateAt_succ ts i hi]
  simp only [normStep]
  exact mem_mapSet_self _ _ _

/-- An entry survives to step `n` when no later record is written under its
key. -/
theorem entry_persists (ts : List Template) (k : String) (v : Template)
    (i n : Nat) (hin : i < n) (hn : n ≤ ts.length)
    (hmem : (k, v) ∈ (stateAt ts (i + 1)).templateMap)
    (hkeys : ∀ j, i < j → j < n → keyAt ts j ≠ k) :
    (k, v) ∈ (stateAt ts n).templateMap := by
  induction n with
  | zero => omega
  | succ m ih =>
    by_cases hcase : i = m
    · subst hcase
      exact hmem
    · have hm : m < ts.length := by omega
      have hprev := ih (by omega) (by omega)
        (fun j h1 h2 => hkeys j h1 (by omega))
      rw [stateAt_succ ts m hm]
      simp only [normStep]
      exact mem_mapSet_of_mem _ _ _ _ hprev
        (Ne.symm (hkeys m (by omega) (by omega)))

/-- When the raw id of record `i` is non-empty, it is a map key once record
`i` has been processed (either it was already taken, or record `i` claims
it). -/
theorem id_present_after (ts : List Template) (i : Nat) (hi : i < ts.length)
    (hne : (ts.getD i default).id ≠ "") :
    mapHas (stateAt ts (i + 1)).templateMap (ts.getD i default).id = true := by
  rw [stateAt_succ ts i hi]
  simp only [normStep]
  rw [mapHas_mapSet_iff]
  by_cases h : mapHas (stateAt ts i).templateMap (ts.getD i default).id = true
  · exact Or.inl h
  · right
    unfold uniqueKeyOf
    rw [if_neg]
    rintro (hc | hc)
    · exact h hc
    · exact hne hc

/-- A record whose raw id is already taken (or missing) is written under a
key synthesized from its name. -/
theorem keyAt_fallback (ts : List Template) (i : Nat)
    (h : mapHas (stateAt ts i).templateMap (ts.getD i default).id = true
      ∨ (ts.getD i default).id = "") :
    keyAt ts i = (ts.getD i default).name
      ∨ keyAt ts i = (ts.getD i default).name ++ "-" ++ toString i := by
  unfold keyAt uniqueKeyOf
  rw [if_pos h]
  by_cases hn : (ts.getD i default).name ∈ (stateAt ts i).seenNames
  · right
    rw [if_pos hn]
  · left
    rw [if_neg hn]

/-- A later record sharing an earlier record's non-empty raw id is re-keyed
from its name. -/
theorem keyAt_rekeyed_of_shared_id (ts : List Template) (i j : Nat)
    (hij : i < j) (hj : j < ts.length)
    (hid : (ts.getD j default).id = (ts.getD i default).id)
    (hne : (ts.getD i default).id ≠ "") :
    keyAt ts j = (ts.getD j default).name
      ∨ keyAt ts j = (ts.getD j default).name ++ "-" ++ toString j := by
  apply keyAt_fallback
  left
  rw [hid]
  have h1 := id_present_after ts i (by omega) hne
  obtain ⟨j0, hj0, hk0⟩ := (mapHas_stateAt_iff ts (i + 1) (by omega) _).mp h1
  exact (mapHas_stateAt_iff ts j (by omega) _).mpr ⟨j0, by omega, hk0⟩

/-- Claim C1 counterexample: on the catalog
`[{id:"x", name:"a"}, {id:"x", name:"x"}]` normalization drops a record.
The second record shares the raw id `"x"`, is re-keyed to its name `"x"`,
and that key overwrites the first record's map slot, so the well-formed
first record (name `"a"`) does not appear in the output. -/
theorem uniqueTemplates_drop_counterexample :
    exDropPair.length = 2
      ∧ (uniqueTemplates exDropPair).length = 1
      ∧ ¬ ∃ t ∈ uniqueTemplates exDropPair, t.name = "a" := by
  decide

/-- Claim C2 counterexample: on the catalog
`[{id:"k", name:"a"}, {id:"k", name:"a-2"}, {id:"k", name:"a"}]` the second
record's raw id collides, it is re-keyed to its name `"a-2"`, but the third
record's synthesized key `"a" ++ "-" ++ "2"` is the same string, so the
second record is overwritten and never emitted. -/
theorem uniqueTemplates_collided_dropped_counterexample :
    (exDropTriple.getD 1 default).id = (exDropTriple.getD 0 default).id
      ∧ ¬ ∃ t ∈ uniqueTemplates exDropTriple, t.name = "a-2" := by
  decide

/-- Claim C1 (amended): a record keeps its non-empty raw id when no earlier
record was written under that id; every later record sharing a non-empty raw
id is re-keyed to its name, or to its name plus its zero-based position; and
a record appears in the normalized output provided no later record is
written under the same key (otherwise the later record replaces it in its
map slot). -/
theorem uniqueTemplates_rekey_amended (ts : List Template) (i : Nat)
    (hi : i < ts.length) :
    ((ts.getD i default).id ≠ "" →
      (∀ j, j < i → keyAt ts j ≠ (ts.getD i default).id) →
      keyAt ts i = (ts.getD i default).id)
    ∧ (∀ j, i < j → j < ts.length →
        (ts.getD j default).id = (ts.getD i default).id →
        (ts.getD i default).id ≠ "" →
        keyAt ts j = (ts.getD j default).name
          ∨ keyAt ts j = (ts.getD j default).name ++ "-" ++ toString j)
    ∧ ((∀ j, i < j → j < ts.length → keyAt ts j ≠ keyAt ts i) →
        { ts.getD i default with id := keyAt ts i } ∈ uniqueTemplates ts) := by
  refine ⟨?_, ?_, ?_⟩
  · intro hne hfresh
    unfold keyAt uniqueKeyOf
    rw [if_neg]
    rintro (hc | hc)
    · obtain ⟨j0, hj0, hk0⟩ := (mapHas_stateAt_iff ts i (le_of_lt hi) _).mp hc
      exact hfresh j0 hj0 hk0
    · exact hne hc
  · intro j h1 h2 h3 h4
    exact keyAt_rekeyed_of_shared_id ts i j h1 h2 h3 h4
  · intro hkeys
    have hmem := entry_enters ts i hi
    have hfinal := entry_persists ts _ _ i ts.length hi le_rfl hmem hkeys
    rw [stateAt_length] at hfinal
    unfold uniqueTemplates
    exact List.mem_map.mpr ⟨_, hfinal, rfl⟩

/-- Claim C1 witness: on the spec's two-record `ghost` catalog, the first
record survives normalization under its key (its id), since the second
record's key differs. -/
theorem uniqueTemplates_rekey_amended_witness :
    (0 : Nat) < exGhost.length
      ∧ { exGhost.getD 0 default with id := keyAt exGhost 0 }
          ∈ uniqueTemplates exGhost := by
  refine ⟨by decide, ?_⟩
  apply (uniqueTemplates_rekey_amended exGhost 0 (by decide)).2.2
  intro j h1 h2
  have hlen : exGhost.length = 2 := by decide
  have hj : j = 1 := by omega
  subst hj
  decide

/-- Claim C2 (amended): the normalized output has pairwise-distinct ids;
every output record is an input record with only its id possibly rewritten
(all other fields keep their original values); and any record whose raw id
collided or was missing is written under a synthesized identifier (its name,
or name plus position) — though such a record can later be overwritten in
its map slot and in that case is not emitted. -/
theorem uniqueTemplates_unique_ids_amended (ts : List Template) :
    ((uniqueTemplates ts).map Template.id).Nodup
    ∧ (∀ t ∈ uniqueTemplates ts, ∃ r ∈ ts, t = { r with id := t.id })
    ∧ (∀ i, i < ts.length →
        ((ts.getD i default).id = ""
          ∨ ∃ j, j < i ∧ (ts.getD j default).id = (ts.getD i default).id) →
        keyAt ts i = (ts.getD i default).name
          ∨ keyAt ts i = (ts.getD i default).name ++ "-" ++ toString i) := by
  refine ⟨?_, ?_, ?_⟩
  · rw [ids_eq_keys]
    exact (goodMap_normGo ts 0 ⟨[], []⟩ ⟨List.nodup_nil, by simp⟩).1
  · intro t ht
    obtain ⟨p, hp, hpt⟩ := List.mem_map.mp ht
    obtain ⟨r, hr, hre⟩ := normGo_values_from ts ts 0 ⟨[], []⟩
      (fun x hx => hx) (by simp) p hp
    have hid : p.2.id = p.1 :=
      (goodMap_normGo ts 0 ⟨[], []⟩ ⟨List.nodup_nil, by simp⟩).2 p hp
    refine ⟨r, hr, ?_⟩
    rw [← hpt, hre, ← hid]
  · intro i hi hcol
    rcases hcol with hcol | ⟨j, hj, hjd⟩
    · exact keyAt_fallback ts i (Or.inr hcol)
    · by_cases hne : (ts.getD i default).id = ""
      · exact keyAt_fallback ts i (Or.inr hne)
      · exact keyAt_rekeyed_of_shared_id ts j i hj hi hjd.symm
          (by rw [hjd]; exact hne)

/-- Claim C2 witness: on a catalog of two identical `svc` records, the
second record's raw id collides and it is written under the synthesized key
`Svc-1` (its name was also already seen). -/
theorem uniqueTemplates_unique_ids_amended_witness :
    ((1 : Nat) < exDupNames.length
        ∧ (exDupNames.getD 0 default).id = (exDupNames.getD 1 default).id)
      ∧ (keyAt exDupNames 1 = (exDupNames.getD 1 default).name
          ∨ keyAt exDupNames 1
            = (exDupNames.getD 1 default).name ++ "-" ++ toString 1) :=
  ⟨⟨by decide, by decide⟩,
    (uniqueTemplates_unique_ids_amended exDupNames).2.2 1 (by decide)
      (Or.inr ⟨0, by omega, by decide⟩)⟩

/-- Claim C7 counterexample: the normalizer does not skip a record that has
neither a usable id nor a usable name — it emits it unchanged (under the
empty-string key) and produces no diagnostic (the pass has none). -/
theorem uniqueTemplates_no_skip_counterexample :
    uniqueTemplates exBlankRecord = [{ id := "", name := "" }] := by
  decide

/-- The tag-filter branch of `filteredTemplates`, as a `filter` over the
step-1 working set (holds for empty catalogs as well, where both sides are
empty). -/
theorem filteredTemplates_eq_filter (uniq : List Template)
    (engine : String → List Template) (q : String) (selectedTags : List String)
    (hlen : selectedTags.length > 0) :
    filteredTemplates uniq (fuseOf uniq engine) q selectedTags
      = (step1WorkingSet uniq (fuseOf uniq engine) q).filter
          (matchesAllTags selectedTags) := by
  by_cases h : uniq.isEmpty
  · have h0 : uniq = [] := List.isEmpty_iff.mp h
    subst h0
    simp [filteredTemplates, fuseOf, step1WorkingSet]
  · simp [filteredTemplates, h, hlen]

/-- Claim C3: with a non-empty tag selection, the pipeline's result contains
exactly the records of the step-1 working set (search results, or the full
catalog when no text filter applies) whose tags include every selected tag,
and as a sublist of the working set — in its relative order, with no
re-sorting after the tag step. -/
theorem filteredTemplates_tag_filter (uniq : List Template)
    (engine : String → List Template) (q : String) (selectedTags : List String)
    (hne : selectedTags ≠ []) :
    (∀ t, t ∈ filteredTemplates uniq (fuseOf uniq engine) q selectedTags ↔
        t ∈ step1WorkingSet uniq (fuseOf uniq engine) q ∧
          ∀ tag ∈ selectedTags, tag ∈ t.tags)
    ∧ (filteredTemplates uniq (fuseOf uniq engine) q selectedTags).Sublist
        (step1WorkingSet uniq (fuseOf uniq engine) q) := by
  have hlen : selectedTags.length > 0 := List.length_pos.mpr hne
  rw [filteredTemplates_eq_filter uniq engine q selectedTags hlen]
  refine ⟨fun t => ?_, List.filter_sublist _⟩
  simp [List.mem_filter, matchesAllTags, List.all_eq_true]

/-- Claim C3 witness: selecting the tags `database` and `cache` on the
concrete catalog (no text filter) keeps exactly the two records carrying
both tags, in catalog order. -/
theorem filteredTemplates_tag_filter_witness :
    (["database", "cache"] : List String) ≠ []
      ∧ ∀ t, t ∈ filteredTemplates exTagged (fuseOf exTagged fun _ => []) ""
            ["database", "cache"] ↔
          t ∈ step1WorkingSet exTagged (fuseOf exTagged fun _ => []) "" ∧
            ∀ tag ∈ (["database", "cache"] : List String), tag ∈ t.tags :=
  ⟨by simp,
    (filteredTemplates_tag_filter exTagged (fun _ => []) "" ["database", "cache"]
      (by simp)).1⟩

/-- Claim C5: for a non-empty burst of query updates in which every update
arrives strictly sooner than the 300-unit quiet interval after the previous
one, the debouncer emits exactly one value for the whole burst — the last
update's value, one quiet interval after it; earlier values are never
emitted (their timers are cancelled by the next update). -/
theorem useDebounce_burst (updates : List (Nat × String)) (hne : updates ≠ [])
    (hburst : updates.Chain' fun a b => b.1 < a.1 + searchDebounceDelay) :
    debounceEmissions searchDebounceDelay updates
      = [((updates.getLast hne).1 + searchDebounceDelay,
          (updates.getLast hne).2)] := by
  induction updates with
  | nil => exact absurd rfl hne
  | cons a rest ih =>
    cases rest with
    | nil =>
      obtain ⟨t, v⟩ := a
      simp [debounceEmissions]
    | cons b rest2 =>
      rw [List.chain'_cons] at hburst
      obtain ⟨hab, htail⟩ := hburst
      obtain ⟨t, v⟩ := a
      obtain ⟨t2, v2⟩ := b
      have hne2 : ((t2, v2) :: rest2 : List (Nat × String)) ≠ [] := by simp
      have hstep : debounceEmissions searchDebounceDelay ((t, v) :: (t2, v2) :: rest2)
          = debounceEmissions searchDebounceDelay ((t2, v2) :: rest2) := by
        rw [debounceEmissions, if_neg (by omega)]
      rw [hstep, ih hne2 htail, List.getLast_cons hne2]

/-- Claim C5 witness: the burst `"a"`, `"ab"`, `"abc"` at times 0, 100, 200
(each gap under 300) produces the single emission `"abc"` at time 500. -/
theorem useDebounce_burst_witness :
    ([(0, "a"), (100, "ab"), (200, "abc")] : List (Nat × String)) ≠ []
      ∧ debounceEmissions searchDebounceDelay [(0, "a"), (100, "ab"), (200, "abc")]
        = [(500, "abc")] :=
  ⟨by simp, by
    have h := useDebounce_burst [(0, "a"), (100, "ab"), (200, "abc")] (by simp)
      (by
        refine List.chain'_cons.mpr ⟨?_, List.chain'_cons.mpr ⟨?_, ?_⟩⟩
        · norm_num [searchDebounceDelay]
        · norm_num [searchDebounceDelay]
        · exact List.chain'_singleton _)
    simpa [searchDebounceDelay] using h⟩

/-- Claim C6: after every mutation of the query text or the tag selection,
the published snapshot satisfies `templatesCount = filteredTemplates.length`
(the effect writes both fields of the snapshot from the same recomputed
list). -/
theorem snapshot_count_consistent (engine : String → List Template)
    (s : StoreState) (m : Mutation) :
    (applyMutation engine s m).templatesCount
      = (applyMutation engine s m).filteredTemplates.length := by
  cases m <;> rfl

/-- Claim C8 counterexample: in the `useFuseSearch` configuration the weight
of `description` is not greater than the weight of `tags` (it is `1` against
`1.5`), refuting the claimed name > description > tags ordering for that
search-index configuration. -/
theorem useFuseSearch_weights_counterexample :
    ¬ (keyWeight useFuseSearchOptions "description"
        > keyWeight useFuseSearchOptions "tags") := by
  simp [keyWeight, useFuseSearchOptions, List.find?]
  norm_num

/-- Claim C8 (amended): the `TemplateGrid` index weights satisfy
name > description > tags, while the `useFuseSearch` hook's weights satisfy
name > tags > description. -/
theorem fuse_weight_order :
    (keyWeight templateGridFuseOptions "name"
        > keyWeight templateGridFuseOptions "description"
      ∧ keyWeight templateGridFuseOptions "description"
        > keyWeight templateGridFuseOptions "tags")
    ∧ (keyWeight useFuseSearchOptions "name"
        > keyWeight useFuseSearchOptions "tags"
      ∧ keyWeight useFuseSearchOptions "tags"
        > keyWeight useFuseSearchOptions "description") := by
  simp [keyWeight, useFuseSearchOptions, templateGridFuseOptions, List.find?]
  norm_num

/-- Claim C10: for a blank (empty or whitespace-only) query or an absent
index, `search` returns the full template list unchanged while
`searchWithDetails` returns the empty list. -/
theorem useFuseSearch_blank_query (templates : List Template)
    (engine : String → List FuseResult) (query : String)
    (h : jsTrim query = "" ∨ templates = []) :
    useFuseSearchSearch templates (useFuseSearchFuse templates engine) query
        = templates
      ∧ useFuseSearchWithDetails (useFuseSearchFuse templates engine) query
        = [] := by
  rcases h with h | h
  · by_cases he : templates.isEmpty
    · simp [useFuseSearchFuse, he, useFuseSearchSearch, useFuseSearchWithDetails]
    · simp [useFuseSearchFuse, he, useFuseSearchSearch, useFuseSearchWithDetails, h]
  · subst h
    simp [useFuseSearchFuse, useFuseSearchSearch, useFuseSearchWithDetails]

/-- Claim C10 witness: at the whitespace query `"  "` and a one-template
list, `search` returns the list and `searchWithDetails` returns `[]`. -/
theorem useFuseSearch_blank_query_witness :
    (jsTrim "  " = "" ∨ [exGhostOne] = ([] : List Template))
      ∧ (useFuseSearchSearch [exGhostOne]
            (useFuseSearchFuse [exGhostOne] fun _ => []) "  "
          = [exGhostOne]
        ∧ useFuseSearchWithDetails
            (useFuseSearchFuse [exGhostOne] fun _ => []) "  "
          = []) :=
  ⟨Or.inl (by decide),
    useFuseSearch_blank_query [exGhostOne] (fun _ => []) "  " (Or.inl (by decide))⟩

/-- The kept-record list of the script's scan does not depend on the running
index (the index only feeds the diagnostics). -/
theorem dedupeScan_fst_index_free (es : List MetaEntry) (i j : Nat)
    (seen : List String) :
    (dedupeScan es i seen).1 = (dedupeScan es j seen).1 := by
  induction es generalizing i j seen with
  | nil => rfl
  | cons e rest ih =>
    cases e with
    | invalid =>
      simp only [dedupeScan]
      exact ih (i + 1) (j + 1) seen
    | item it =>
      cases hid : it.id with
      | none =>
        simp only [dedupeScan, hid]
        exact ih (i + 1) (j + 1) seen
      | some d =>
        by_cases hd : d ∈ seen
        · simp only [dedupeScan, hid, if_pos hd]
          exact ih (i + 1) (j + 1) seen
        · simp only [dedupeScan, hid, if_neg hd]
          rw [ih (i + 1) (j + 1) (d :: seen)]

/-- Skipping an ill-formed entry leaves the kept-record list exactly as if
the entry were absent: the scan of the remaining records continues. -/
theorem dedupeScan_skips_bad (pre post : List MetaEntry) (e : MetaEntry)
    (hbad : e = MetaEntry.invalid ∨ ∃ it, e = MetaEntry.item it ∧ it.id = none)
    (i : Nat) (seen : List String) :
    (dedupeScan (pre ++ e :: post) i seen).1
      = (dedupeScan (pre ++ post) i seen).1 := by
  induction pre generalizing i seen with
  | nil =>
    rcases hbad with h | ⟨it, he, hid⟩
    · subst h
      simp only [List.nil_append, dedupeScan]
      exact dedupeScan_fst_index_free post (i + 1) i seen
    · subst he
      simp only [List.nil_append, dedupeScan, hid]
      exact dedupeScan_fst_index_free post (i + 1) i seen
  | cons e2 rest ih =>
    cases e2 with
    | invalid =>
      simp only [List.cons_append, dedupeScan]
      exact ih (i + 1) seen
    | item it =>
      cases hid : it.id with
      | none =>
        simp only [List.cons_append, dedupeScan, hid]
        exact ih (i + 1) seen
      | some d =>
        by_cases hd : d ∈ seen
        · simp only [List.cons_append, dedupeScan, hid, if_pos hd]
          exact ih (i + 1) seen
        · simp only [List.cons_append, dedupeScan, hid, if_neg hd]
          exact congrArg (fun l => it :: l) (ih (i + 1) (d :: seen))

/-- Skipping an ill-formed entry emits a diagnostic naming its position. -/
theorem dedupeScan_diag_skip (pre post : List MetaEntry) (e : MetaEntry)
    (hbad : e = MetaEntry.invalid ∨ ∃ it, e = MetaEntry.item it ∧ it.id = none)
    (i : Nat) (seen : List String) :
    ∃ d ∈ (dedupeScan (pre ++ e :: post) i seen).2,
      d = MetaDiag.skippedInvalid (i + pre.length)
        ∨ ∃ nm, d = MetaDiag.skippedNoId (i + pre.length) nm := by
  induction pre generalizing i seen with
  | nil =>
    rcases hbad with h | ⟨it, he, hid⟩
    · subst h
      refine ⟨MetaDiag.skippedInvalid i, ?_, Or.inl (by simp)⟩
      simp [dedupeScan]
    · subst he
      refine ⟨MetaDiag.skippedNoId i it.name, ?_, Or.inr ⟨it.name, by simp⟩⟩
      simp [dedupeScan, hid]
  | cons e2 rest ih =>
    have harith : i + (e2 :: rest).length = (i + 1) + rest.length := by
      rw [List.length_cons]
      omega
    rw [harith]
    cases e2 with
    | invalid =>
      obtain ⟨d, hd, hform⟩ := ih (i + 1) seen
      refine ⟨d, ?_, hform⟩
      simp only [List.cons_append, dedupeScan]
      exact List.mem_cons_of_mem _ hd
    | item it =>
      cases hid : it.id with
      | none =>
        obtain ⟨d, hd, hform⟩ := ih (i + 1) seen
        refine ⟨d, ?_, hform⟩
        simp only [List.cons_append, dedupeScan, hid]
        exact List.mem_cons_of_mem _ hd
      | some dd =>
        by_cases hdd : dd ∈ seen
        · obtain ⟨d, hd, hform⟩ := ih (i + 1) seen
          refine ⟨d, ?_, hform⟩
          simp only [List.cons_append, dedupeScan, hid, if_pos hdd]
          exact List.mem_cons_of_mem _ hd
        · obtain ⟨d, hd, hform⟩ := ih (i + 1) (dd :: seen)
          refine ⟨d, ?_, hform⟩
          simp only [List.cons_append, dedupeScan, hid, if_neg hdd]
          exact hd

/-- Claim C7 (amended): the maintenance script's scan skips an entry that is
not a structured object, or that lacks an id, with a diagnostic naming its
position, and continues with the remaining records exactly as if the entry
were absent.  (The in-app normalizer itself skips nothing — see the
counterexample — so the skipping behaviour belongs to the script alone.) -/
theorem dedupe_skip_continue (pre post : List MetaEntry) (e : MetaEntry)
    (hbad : e = MetaEntry.invalid ∨ ∃ it, e = MetaEntry.item it ∧ it.id = none) :
    (dedupeScan (pre ++ e :: post) 0 []).1 = (dedupeScan (pre ++ post) 0 []).1
    ∧ ∃ d ∈ (dedupeScan (pre ++ e :: post) 0 []).2,
        d = MetaDiag.skippedInvalid pre.length
          ∨ ∃ nm, d = MetaDiag.skippedNoId pre.length nm := by
  refine ⟨dedupeScan_skips_bad pre post e hbad 0 [], ?_⟩
  have h := dedupeScan_diag_skip pre post e hbad 0 []
  simpa using h

/-- Claim C7 witness: on a catalog with a valid record, a non-object entry,
and another valid record, the scan keeps the two valid records (as without
the bad entry) and continues past the skip. -/
theorem dedupe_skip_continue_witness :
    (MetaEntry.invalid = MetaEntry.invalid
        ∨ ∃ it, MetaEntry.invalid = MetaEntry.item it ∧ it.id = none)
      ∧ (dedupeScan (exMetaPre ++ MetaEntry.invalid :: exMetaPost) 0 []).1
        = (dedupeScan (exMetaPre ++ exMetaPost) 0 []).1 :=
  ⟨Or.inl rfl,
    (dedupe_skip_continue exMetaPre exMetaPost MetaEntry.invalid (Or.inl rfl)).1⟩

/-- Under well-formed input the script's scan keeps exactly the first record
bearing each id, as the reference `keepFirstById` prescribes. -/
theorem dedupeScan_eq_keepFirst (items : List MetaItem) (i : Nat)
    (seen : List String) (hvalid : ∀ it ∈ items, it.id ≠ none) :
    (dedupeScan (items.map MetaEntry.item) i seen).1 = keepFirstById items seen := by
  induction items generalizing i seen with
  | nil => rfl
  | cons it rest ih =>
    have hit : it.id ≠ none := hvalid it (List.mem_cons_self _ _)
    have hrest : ∀ x ∈ rest, x.id ≠ none :=
      fun x hx => hvalid x (List.mem_cons_of_mem _ hx)
    cases hid : it.id with
    | none => exact absurd hid hit
    | some d =>
      by_cases hd : d ∈ seen
      · simp only [List.map_cons, dedupeScan, keepFirstById, hid, if_pos hd]
        exact ih (i + 1) seen hrest
      · simp only [List.map_cons, dedupeScan, keepFirstById, hid, if_neg hd]
        rw [ih (i + 1) (d :: seen) hrest]

/-- Claim C9: on an array of well-formed records the maintenance script
keeps only the first occurrence of each id (later duplicates discarded),
sorts the kept records by lowercased id, and performs the timestamped backup
write of the prior file content before the overwrite of the catalog file. -/
theorem dedupeAndSortMeta_spec (filePath fileContent : String) (now : Nat)
    (render : List MetaItem → String) (items : List MetaItem)
    (hvalid : ∀ it ∈ items, it.id ≠ none) :
    (dedupeAndSortMeta filePath fileContent now render
        (items.map MetaEntry.item)).1.Perm (keepFirstById items [])
    ∧ List.Sorted metaLE
        (dedupeAndSortMeta filePath fileContent now render
          (items.map MetaEntry.item)).1
    ∧ (dedupeAndSortMeta filePath fileContent now render
        (items.map MetaEntry.item)).2
      = [⟨filePath ++ ".backup." ++ toString now, fileContent⟩,
         ⟨filePath, render (dedupeAndSortMeta filePath fileContent now render
            (items.map MetaEntry.item)).1⟩] := by
  refine ⟨?_, ?_, rfl⟩
  · have hperm := List.perm_insertionSort metaLE
      (dedupeScan (items.map MetaEntry.item) 0 []).1
    refine hperm.trans ?_
    rw [dedupeScan_eq_keepFirst items 0 [] hvalid]
  · exact List.sorted_insertionSort metaLE _

/-- Claim C9 witness: on the concrete three-record catalog with a duplicate
id `"b"`, the kept records are the first `b` and the `a`, sorted, and the
two writes are the backup (with the prior content) then the overwrite. -/
theorem dedupeAndSortMeta_spec_witness :
    (∀ it ∈ exMetaItems, it.id ≠ none)
      ∧ (dedupeAndSortMeta "meta.json" "old" 7 (fun _ => "new")
          (exMetaItems.map MetaEntry.item)).2
        = [⟨"meta.json" ++ ".backup." ++ toString 7, "old"⟩,
           ⟨"meta.json", (fun _ => "new") (dedupeAndSortMeta "meta.json" "old" 7
              (fun _ => "new") (exMetaItems.map MetaEntry.item)).1⟩] :=
  ⟨by decide,
    (dedupeAndSortMeta_spec "meta.json" "old" 7 (fun _ => "new") exMetaItems
      (by decide)).2.2⟩
